import Mathlib

/-!
Shallow embedding of `src/app.py` (entrepreneurship feasibility analysis app).

The app's core logic is:
* `extract_numerical_data` (app.py lines 90-97): two `re.findall` scans over the
  generated narrative text, one for year/value pairs with pattern
  `(\d{4}).*?(\d+(?:\.\d+)?)` and one for label/percent pairs with pattern
  `(\w+(?:\s+\w+)?)\s*:\s*(\d+(?:\.\d+)?)\s*%`.
* `create_charts` (lines 99-120): builds at most one line chart (sorted by year)
  and one pie chart from the extracted pairs.
* `create_docx` (lines 122-139): assembles the downloadable document.
* the button handler (lines 141-199): input validation, the two network calls,
  display and download.

The regex scans are embedded as executable matchers over `List Char` that follow
Python `re` semantics for these two specific patterns: `re.findall` scans left
to right, commits to the leftmost match and resumes after it; greedy runs here
are never shortened by backtracking because each is followed by a token no
character of the run can begin, and the lazy `.*?` stops at the first position
where the rest of the pattern matches.  Character classes are modelled at ASCII
level, which is what the narrative text contains.  Floats are modelled as
rationals; the decimal strings the patterns extract are exactly representable.
-/

/-- Python `\d` (ASCII): a decimal digit. -/
def isDigitC (c : Char) : Bool := c.isDigit

/-- Python `\w` (ASCII): letter, digit or underscore. -/
def isWordC (c : Char) : Bool := c.isAlphanum || c = '_'

/-- Python `\s` (ASCII): whitespace. -/
def isSpaceC (c : Char) : Bool :=
  c = ' ' || c = '\t' || c = '\n' || c = '\r' || c = '\x0b' || c = '\x0c'

/-- The optional fraction `(?:\.\d+)?`: a dot followed by a nonempty greedy
digit run, or nothing.  Returns the consumed characters and the rest. -/
def fracPart (r : List Char) : List Char × List Char :=
  match r with
  | '.' :: r2 =>
    let fs := r2.takeWhile isDigitC
    if fs = [] then ([], r) else ('.' :: fs, r2.dropWhile isDigitC)
  | _ => ([], r)

/-- Match `\d+(?:\.\d+)?` at the head of `s`: the greedy digit run, optionally
followed by the fraction (nothing after this group in either pattern can force
backtracking into it, so the greedy maximal parse is the one Python commits
to).  Returns the matched characters and the rest of the input. -/
def matchNumber (s : List Char) : Option (List Char × List Char) :=
  let ds := s.takeWhile isDigitC
  if ds = [] then none
  else
    let fr := fracPart (s.dropWhile isDigitC)
    some (ds ++ fr.1, fr.2)

/-- The lazy gap `.*?` followed by `\d+(?:\.\d+)?`: Python tries the shortest
gap first, so the number starts at the first digit reachable without crossing a
newline (`.` does not match `\n`; once a digit is reached, `\d+` succeeds, so no
longer gap is ever tried).  Returns the number group and the rest. -/
def findNumberNoNewline : List Char → Option (List Char × List Char)
  | [] => none
  | c :: rest =>
    if isDigitC c then matchNumber (c :: rest)
    else if c = '\n' then none
    else findNumberNoNewline rest

/-- One attempt of pattern `(\d{4}).*?(\d+(?:\.\d+)?)` anchored at the head of
`s`: four digits, then the lazy gap and the number group.  Returns the two
captured groups and the rest of the input after the match. -/
def matchLineAt (s : List Char) : Option ((List Char × List Char) × List Char) :=
  match s with
  | a :: b :: c :: d :: rest =>
    if isDigitC a && isDigitC b && isDigitC c && isDigitC d then
      match findNumberNoNewline rest with
      | some (num, rest2) => some (([a, b, c, d], num), rest2)
      | none => none
    else none
  | _ => none

/-- Fuel-indexed driver for the line-pattern scan; `scanLine` runs it with
fuel equal to the input length, which (every step consuming at least one
character) never runs out. -/
def scanLineGo : Nat → List Char → List (List Char × List Char)
  | 0, _ => []
  | _ + 1, [] => []
  | fuel + 1, c :: t =>
    match matchLineAt (c :: t) with
    | some ((y, v), rest) => (y, v) :: scanLineGo fuel rest
    | none => scanLineGo fuel t

/-- The left-to-right scan of `re.findall` for the line-chart pattern
`(\d{4}).*?(\d+(?:\.\d+)?)` (app.py line 92): try a match at the current
position; on success record the two groups and resume at the end of the match
(matches of this pattern are never empty), on failure advance one character. -/
def scanLine (s : List Char) : List (List Char × List Char) :=
  scanLineGo s.length s

/-- Require the literal character `c` at the head of `s`; return the rest. -/
def expectChar (c : Char) (s : List Char) : Option (List Char) :=
  match s with
  | c2 :: r => if c2 = c then some r else none
  | [] => none

/-- The suffix `\s*:\s*(\d+(?:\.\d+)?)\s*%` of the pie pattern, anchored at the
head of `s`.  Each `\s*` is followed by a non-whitespace literal, and the
number group is followed by `\s*%` which no digit or dot can begin, so every
quantifier here is committed to its greedy maximum.  Returns the number group
and the rest of the input after the `%`. -/
def matchColonNumPct (s : List Char) : Option (List Char × List Char) := do
  let r1 ← expectChar ':' (s.dropWhile isSpaceC)
  let (num, r3) ← matchNumber (r1.dropWhile isSpaceC)
  let r5 ← expectChar '%' (r3.dropWhile isSpaceC)
  return (num, r5)

/-- One attempt of the pie pattern `(\w+(?:\s+\w+)?)\s*:\s*(\d+(?:\.\d+)?)\s*%`
anchored at the head of `s`.  The label group `\w+(?:\s+\w+)?` is a greedy word
run, optionally extended by a whitespace run and a second greedy word run;
shortening any of these runs makes the next pattern token fail immediately (a
word character can begin none of `\s+`, `\s*:`), so Python first commits to the
two-word form with maximal runs and, if the rest of the pattern then fails,
retries with the one-word form.  Returns the label and number groups and the
rest of the input after the match. -/
def matchPieAt (s : List Char) : Option ((List Char × List Char) × List Char) :=
  let w1 := s.takeWhile isWordC
  if w1 = [] then none
  else
    let r1 := s.dropWhile isWordC
    let sp := r1.takeWhile isSpaceC
    let r2 := r1.dropWhile isSpaceC
    let w2 := r2.takeWhile isWordC
    let twoWord : Option ((List Char × List Char) × List Char) :=
      if sp = [] ∨ w2 = [] then none
      else
        match matchColonNumPct (r2.dropWhile isWordC) with
        | some (num, rest) => some ((w1 ++ sp ++ w2, num), rest)
        | none => none
    match twoWord with
    | some m => some m
    | none =>
      match matchColonNumPct r1 with
      | some (num, rest) => some ((w1, num), rest)
      | none => none

/-- Fuel-indexed driver for the pie-pattern scan; `scanPie` runs it with fuel
equal to the input length, which (every step consuming at least one character)
never runs out. -/
def scanPieGo : Nat → List Char → List (List Char × List Char)
  | 0, _ => []
  | _ + 1, [] => []
  | fuel + 1, c :: t =>
    match matchPieAt (c :: t) with
    | some ((lab, num), rest) => (lab, num) :: scanPieGo fuel rest
    | none => scanPieGo fuel t

/-- The left-to-right scan of `re.findall` for the pie-chart pattern
`(\w+(?:\s+\w+)?)\s*:\s*(\d+(?:\.\d+)?)\s*%` (app.py line 95): try a match at
the current position; on success record the two groups and resume at the end of
the match (matches of this pattern are never empty), on failure advance one
character. -/
def scanPie (s : List Char) : List (List Char × List Char) :=
  scanPieGo s.length s

/-- app.py lines 90-97: `extract_numerical_data(text)` — the two `re.findall`
scans, returning `(line_data, pie_data)` as lists of captured string pairs. -/
def extract_numerical_data (text : String) : List (String × String) × List (String × String) :=
  ((scanLine text.data).map (fun p => (String.mk p.1, String.mk p.2)),
   (scanPie text.data).map (fun p => (String.mk p.1, String.mk p.2)))

/-- Numeric value of a digit string (`pd.to_numeric` on a `\d{4}` capture). -/
def natOfDigits (s : List Char) : Nat :=
  s.foldl (fun n c => n * 10 + (c.toNat - '0'.toNat)) 0

/-- Numeric value of a `\d+(?:\.\d+)?` capture (`pd.to_numeric` / `float`),
modelled as a rational: such decimal strings are exactly representable. -/
def ratOfDecimal (s : String) : ℚ :=
  let ip := s.data.takeWhile isDigitC
  match s.data.dropWhile isDigitC with
  | '.' :: fr => (natOfDigits ip : ℚ) + (natOfDigits fr : ℚ) / (10 : ℚ) ^ fr.length
  | _ => (natOfDigits ip : ℚ)

/-- Insert a (year, value) pair into a list, before the first entry whose year
is not smaller. -/
def insertByYear (a : Nat × ℚ) : List (Nat × ℚ) → List (Nat × ℚ)
  | [] => [a]
  | b :: l => if a.1 ≤ b.1 then a :: b :: l else b :: insertByYear a l

/-- app.py line 106: `df.sort_values('Year')` — ascending sort of the data
frame rows by the Year column with the default `kind='quicksort'` (numpy
introsort).  Pandas guarantees only that the result is ascending in Year and a
rearrangement of the rows; it documents this kind as NOT stable, so the
relative order of rows with equal years is unspecified (only
`kind='mergesort'`/`'stable'` is stable).  An executable model must still pick
some concrete order for ties; this insertion sort picks one, and that choice is
an artifact of the model: no theorem below relies on the tie order, only on
sortedness and permutation, which the library does guarantee. -/
def sortValues (l : List (Nat × ℚ)) : List (Nat × ℚ) :=
  match l with
  | [] => []
  | a :: t => insertByYear a (sortValues t)

/-- A rendered chart: the structured content handed to the plotting library
(app.py lines 108 and 116), stripped of styling. -/
inductive Chart where
  | line (points : List (Nat × ℚ))
  | pie (labels : List String) (values : List ℚ)
deriving DecidableEq

/-- Conversion of one captured pair into a line-chart row
(`pd.to_numeric` on both columns, app.py lines 104-105). -/
def toLinePoint (p : String × String) : Nat × ℚ :=
  (natOfDigits p.1.data, ratOfDecimal p.2)

/-- app.py lines 99-120: `create_charts(line_data, pie_data)` — a line chart
from the year/value pairs sorted by year if `line_data` is nonempty, then a pie
chart with one slice per pair in appearance order if `pie_data` is nonempty. -/
def create_charts (line_data pie_data : List (String × String)) : List Chart :=
  (if line_data = [] then [] else
    [Chart.line (sortValues (line_data.map toLinePoint))]) ++
  (if pie_data = [] then [] else
    [Chart.pie (pie_data.map (fun p => p.1)) (pie_data.map (fun p => ratOfDecimal p.2))])

/-- Python `str.replace(' ', '_')`: replacing a single character by a single
character is a per-character map. -/
def replaceSpaces (s : String) : String :=
  String.mk (s.data.map (fun c => if c = ' ' then '_' else c))

/-- app.py line 195: the download file name
`f"Feasibility_Analysis_{city.replace(' ', '_')}_{country.replace(' ', '_')}.docx"`. -/
def analysisFileName (city country : String) : String :=
  "Feasibility_Analysis_" ++ replaceSpaces city ++ "_" ++ replaceSpaces country ++ ".docx"

/-- One block of the assembled document: a heading with its level, a plain
paragraph, or a `List Bullet` styled paragraph. -/
inductive DocBlock where
  | heading (level : Nat) (text : String)
  | para (text : String)
  | bullet (text : String)
deriving DecidableEq

/-- The fixed closing paragraph of every document (app.py line 137). -/
def disclaimerText : String :=
  "\nNote: This document was generated by an AI assistant. Verify the information with official sources for more accurate and up-to-date data."

/-- app.py lines 122-139: `create_docx(city, country, information, sources)` —
the document as the ordered list of blocks added to it.  `information` is the
insertion-ordered dict, modelled as an association list. -/
def create_docx (city country : String) (information : List (String × String))
    (sources : List String) : List DocBlock :=
  [DocBlock.heading 0 ("Feasibility Analysis - " ++ city ++ ", " ++ country),
   DocBlock.heading 1 "Location",
   DocBlock.para (city ++ ", " ++ country)]
  ++ information.flatMap (fun sd => [DocBlock.heading 2 sd.1, DocBlock.para sd.2])
  ++ [DocBlock.heading 1 "Sources"]
  ++ sources.map DocBlock.bullet
  ++ [DocBlock.para disclaimerText]

/-- One entry of the search response's `organic` array. -/
structure SearchItem where
  snippet : String
  link : String
deriving DecidableEq

/-- The search API response: the `organic` array may be absent
(`search_results.get("organic", [])`, app.py lines 163-164). -/
structure SearchResponse where
  organic? : Option (List SearchItem)
deriving DecidableEq

/-- app.py line 163: the generation context, newline-joined snippets; an absent
`organic` array defaults to the empty list. -/
def searchContext (r : SearchResponse) : String :=
  String.intercalate "\n" ((r.organic?.getD []).map (fun i => i.snippet))

/-- app.py line 164: the source links, in response order. -/
def searchSources (r : SearchResponse) : List String :=
  (r.organic?.getD []).map (fun i => i.link)

/-- One entry of the generation response's `output.choices` array. -/
structure GenChoice where
  text : String
deriving DecidableEq

/-- The `output` object of the generation response; the `choices` key may be
absent. -/
structure GenOutput where
  choices? : Option (List GenChoice)
deriving DecidableEq

/-- The generation API response; the `output` key may be absent. -/
structure GenResponse where
  output? : Option GenOutput
deriving DecidableEq

/-- app.py line 88: `response.json()['output']['choices'][0]['text'].strip()`.
A missing `output` or `choices` key raises `KeyError`, an empty `choices`
array raises `IndexError`; none of these is caught anywhere, so they surface
as an `Except.error` that aborts the action. -/
def extractGenText (r : GenResponse) : Except String String :=
  match r.output? with
  | none => Except.error "KeyError: output"
  | some o =>
    match o.choices? with
    | none => Except.error "KeyError: choices"
    | some [] => Except.error "IndexError: list index out of range"
    | some (c :: _) => Except.ok c.text.trim

/-- The observable outcome of one run of the page script (app.py lines
141-199): warnings shown, outbound network calls made, whether an uncaught
exception aborted the run, what was displayed and what was offered for
download. -/
structure RunResult where
  warned : Bool := false
  networkCalls : Nat := 0
  errored : Bool := false
  analysisShown : Bool := false
  charts : List Chart := []
  downloadName? : Option String := none
  downloadDoc? : Option (List DocBlock) := none
deriving DecidableEq

/-- The sector selector option that opens the free-text idea box. -/
def customOptionText : String := "Describe your own entrepreneurship idea"

/-- app.py lines 141-199: one run of the page script.  Inputs are the widget
states (city, country, selected sector option, the custom idea text, whether
the button was clicked) and the two API responses the run would receive.  An
empty custom idea warns and stops before the button (lines 151-153); a clicked
button with a missing field warns without calling out (line 199); otherwise the
search call, the generation call, extraction, charts and the download offer
happen in sequence, and an uncaught generation-response error aborts the rest. -/
def app_run (city country selectedOption businessIdea : String) (clicked : Bool)
    (searchResp : SearchResponse) (genResp : GenResponse) : RunResult :=
  if selectedOption = customOptionText ∧ businessIdea = "" then
    { warned := true }
  else
    let selected_sector :=
      if selectedOption = customOptionText then "Custom idea: " ++ businessIdea
      else selectedOption
    if clicked then
      if city ≠ "" ∧ country ≠ "" ∧ selected_sector ≠ "" then
        let sources := searchSources searchResp
        match extractGenText genResp with
        | Except.error _ => { networkCalls := 2, errored := true }
        | Except.ok data =>
          let ld := (extract_numerical_data data).1
          let pd := (extract_numerical_data data).2
          { networkCalls := 2,
            analysisShown := true,
            charts := create_charts ld pd,
            downloadName? := some (analysisFileName city country),
            downloadDoc? := some (create_docx city country [(selected_sector, data)] sources) }
      else { warned := true }
    else {}

/-- Is a block a sector heading (level 2)? -/
def isH2 : DocBlock → Bool
  | DocBlock.heading 2 _ => true
  | _ => false

/-- Is a block a bulleted source item? -/
def isBulletB : DocBlock → Bool
  | DocBlock.bullet _ => true
  | _ => false

/-- The ShareBreakdown as rendered into the pie chart: each extracted pair with
its percent string converted to a number (`float(item[1])`, app.py line 114). -/
def shareBreakdown (text : String) : List (String × ℚ) :=
  (extract_numerical_data text).2.map (fun p => (p.1, ratOfDecimal p.2))

/-- A run that stopped at input validation: a warning was shown, no network
call was made, and nothing else happened. -/
def abortedNoCalls (r : RunResult) : Prop :=
  r.warned = true ∧ r.networkCalls = 0 ∧ r.errored = false ∧ r.analysisShown = false ∧
  r.charts = [] ∧ r.downloadName? = none ∧ r.downloadDoc? = none

theorem fracPart_append (r : List Char) : (fracPart r).1 ++ (fracPart r).2 = r := by
  unfold fracPart
  split
  · next r2 =>
    by_cases hfs : r2.takeWhile isDigitC = []
    · simp [hfs]
    · simp only [hfs, if_false]
      simp [r2.takeWhile_append_dropWhile]
  · simp

theorem matchNumber_decomp {s n r : List Char} (h : matchNumber s = some (n, r)) :
    n ++ r = s ∧ n ≠ [] := by
  unfold matchNumber at h
  by_cases hds : s.takeWhile isDigitC = []
  · simp [hds] at h
  · simp only [hds, if_false, Option.some.injEq, Prod.mk.injEq] at h
    obtain ⟨hn, hr⟩ := h
    constructor
    · rw [← hn, ← hr, List.append_assoc, fracPart_append, s.takeWhile_append_dropWhile]
    · intro hcontra
      rw [← hn] at hcontra
      exact hds (List.append_eq_nil.mp hcontra).1

theorem matchNumber_rest_length {s n r : List Char} (h : matchNumber s = some (n, r)) :
    r.length < s.length := by
  obtain ⟨hsplit, hne⟩ := matchNumber_decomp h
  have : n.length + r.length = s.length := by rw [← hsplit, List.length_append]
  have : 0 < n.length := List.length_pos.mpr hne
  omega

theorem findNumberNoNewline_decomp {s n r : List Char}
    (h : findNumberNoNewline s = some (n, r)) :
    ∃ gap, gap ++ n ++ r = s ∧ n ≠ [] ∧ ∀ c ∈ gap, c ≠ '\n' := by
  induction s with
  | nil => simp [findNumberNoNewline] at h
  | cons c rest ih =>
    unfold findNumberNoNewline at h
    by_cases hd : isDigitC c
    · simp only [hd, if_true] at h
      obtain ⟨hsplit, hne⟩ := matchNumber_decomp h
      exact ⟨[], by simpa using hsplit, hne, by simp⟩
    · simp only [hd, if_false] at h
      by_cases hnl : c = '\n'
      · simp [hnl] at h
      · simp only [hnl, if_false] at h
        obtain ⟨gap, hsplit, hne, hgap⟩ := ih h
        refine ⟨c :: gap, by simp [hsplit], hne, ?_⟩
        intro x hx
        rcases List.mem_cons.mp hx with hx | hx
        · subst hx; exact hnl
        · exact hgap x hx

theorem findNumberNoNewline_rest_length {s n r : List Char}
    (h : findNumberNoNewline s = some (n, r)) : r.length < s.length := by
  obtain ⟨gap, hsplit, hne, _⟩ := findNumberNoNewline_decomp h
  have : gap.length + n.length + r.length = s.length := by
    rw [← hsplit]; simp [List.length_append]; omega
  have : 0 < n.length := List.length_pos.mpr hne
  omega

theorem matchLineAt_decomp {s : List Char} {y v r : List Char}
    (h : matchLineAt s = some ((y, v), r)) :
    ∃ gap, y ++ gap ++ v ++ r = s ∧ y.length = 4 ∧ y.all isDigitC ∧ v ≠ [] ∧
      ∀ c ∈ gap, c ≠ '\n' := by
  unfold matchLineAt at h
  split at h
  · next a b c d rest =>
    by_cases hd : (isDigitC a && isDigitC b && isDigitC c && isDigitC d) = true
    · simp only [hd, if_true] at h
      cases hfn : findNumberNoNewline rest with
      | none => rw [hfn] at h; simp at h
      | some p =>
        obtain ⟨num, rest2⟩ := p
        rw [hfn] at h
        simp only [Option.some.injEq, Prod.mk.injEq] at h
        obtain ⟨⟨hy, hv⟩, hr⟩ := h
        obtain ⟨gap, hsplit, hne, hgap⟩ := findNumberNoNewline_decomp hfn
        refine ⟨gap, ?_, by simp [← hy], ?_, by rw [← hv]; exact hne, hgap⟩
        · rw [← hy, ← hv, ← hr]
          simp only [List.cons_append, List.nil_append, List.append_assoc]
          rw [← List.append_assoc gap, hsplit]
        · simp only [← hy, List.all_cons, List.all_nil, Bool.and_true]
          simp only [Bool.and_eq_true] at hd
          simp [hd.1.1.1, hd.1.1.2, hd.1.2, hd.2]
    · simp [hd] at h
  · simp at h

theorem matchLineAt_rest_length {s : List Char} {p : (List Char × List Char) × List Char}
    (h : matchLineAt s = some p) : p.2.length < s.length := by
  obtain ⟨⟨y, v⟩, r⟩ := p
  obtain ⟨gap, hsplit, hy4, _, hvne, _⟩ := matchLineAt_decomp h
  have : y.length + gap.length + v.length + r.length = s.length := by
    rw [← hsplit]; simp [List.length_append]; omega
  have : 0 < v.length := List.length_pos.mpr hvne
  simp only []
  omega

theorem scanLineGo_fuel :
    ∀ (f g : Nat) (s : List Char), s.length ≤ f → s.length ≤ g →
      scanLineGo f s = scanLineGo g s := by
  intro f
  induction f with
  | zero =>
    intro g s hf _
    have : s = [] := List.eq_nil_of_length_eq_zero (by omega)
    subst this
    cases g <;> rfl
  | succ f ih =>
    intro g s hf hg
    cases s with
    | nil => cases g <;> rfl
    | cons c t =>
      cases g with
      | zero => simp at hg
      | succ g =>
        show (match matchLineAt (c :: t) with
          | some ((y, v), rest) => (y, v) :: scanLineGo f rest
          | none => scanLineGo f t) =
          (match matchLineAt (c :: t) with
          | some ((y, v), rest) => (y, v) :: scanLineGo g rest
          | none => scanLineGo g t)
        cases hm : matchLineAt (c :: t) with
        | none =>
          simp only []
          exact ih g t (by simp at hf; omega) (by simp at hg; omega)
        | some p =>
          obtain ⟨⟨y, v⟩, rest⟩ := p
          simp only []
          have hrest : rest.length < (c :: t).length := matchLineAt_rest_length hm
          simp only [List.length_cons] at hf hg hrest
          rw [ih g rest (by omega) (by omega)]

theorem scanLine_nil : scanLine [] = [] := rfl

theorem scanLine_cons_some {c : Char} {t y v rest : List Char}
    (h : matchLineAt (c :: t) = some ((y, v), rest)) :
    scanLine (c :: t) = (y, v) :: scanLine rest := by
  show scanLineGo (t.length + 1) (c :: t) = _
  show (match matchLineAt (c :: t) with
    | some ((y, v), rest) => (y, v) :: scanLineGo t.length rest
    | none => scanLineGo t.length t) = _
  rw [h]
  show (y, v) :: scanLineGo t.length rest = (y, v) :: scanLine rest
  have hrest : rest.length < (c :: t).length := matchLineAt_rest_length h
  simp only [List.length_cons] at hrest
  rw [scanLineGo_fuel t.length rest.length rest (by omega) le_rfl]
  rfl

theorem scanLine_cons_none {c : Char} {t : List Char}
    (h : matchLineAt (c :: t) = none) :
    scanLine (c :: t) = scanLine t := by
  show scanLineGo (t.length + 1) (c :: t) = _
  show (match matchLineAt (c :: t) with
    | some ((y, v), rest) => (y, v) :: scanLineGo t.length rest
    | none => scanLineGo t.length t) = _
  rw [h]
  show scanLineGo t.length t = scanLine t
  rfl

theorem dropWhile_length_le (p : Char → Bool) (l : List Char) :
    (l.dropWhile p).length ≤ l.length :=
  (List.dropWhile_sublist p).length_le

theorem expectChar_some {c : Char} {s r : List Char} (h : expectChar c s = some r) :
    s = c :: r := by
  unfold expectChar at h
  cases s with
  | nil => simp at h
  | cons c2 t =>
    by_cases hc : c2 = c
    · simp only [hc, if_true, Option.some.injEq] at h
      rw [hc, h]
    · simp [hc] at h

theorem matchColonNumPct_rest_length {s : List Char} {n r : List Char}
    (h : matchColonNumPct s = some (n, r)) : r.length < s.length := by
  unfold matchColonNumPct at h
  simp only [bind, Option.bind_eq_some] at h
  obtain ⟨r1, h1, h⟩ := h
  obtain ⟨⟨num, r3⟩, h2, h⟩ := h
  obtain ⟨r5, h3, h⟩ := h
  simp only [pure, Option.some.injEq, Prod.mk.injEq] at h
  obtain ⟨-, hr⟩ := h
  have e1 : s.dropWhile isSpaceC = ':' :: r1 := expectChar_some h1
  have e3 : r3.dropWhile isSpaceC = '%' :: r5 := expectChar_some h3
  have l1 : (s.dropWhile isSpaceC).length ≤ s.length := dropWhile_length_le isSpaceC s
  have l2 : (r1.dropWhile isSpaceC).length ≤ r1.length := dropWhile_length_le isSpaceC r1
  have l3 : r3.length < (r1.dropWhile isSpaceC).length := matchNumber_rest_length h2
  have l4 : (r3.dropWhile isSpaceC).length ≤ r3.length := dropWhile_length_le isSpaceC r3
  have e1l : (s.dropWhile isSpaceC).length = r1.length + 1 := by rw [e1]; simp
  have e3l : (r3.dropWhile isSpaceC).length = r5.length + 1 := by rw [e3]; simp
  subst hr
  omega

theorem matchPieAt_rest_length {s : List Char} {p : (List Char × List Char) × List Char}
    (h : matchPieAt s = some p) : p.2.length < s.length := by
  obtain ⟨⟨lab, num⟩, r⟩ := p
  show r.length < s.length
  unfold matchPieAt at h
  by_cases hw1 : s.takeWhile isWordC = []
  · simp [hw1] at h
  · simp only [hw1, if_false] at h
    have hr1 : (s.dropWhile isWordC).length < s.length := by
      have hsum : (s.takeWhile isWordC).length + (s.dropWhile isWordC).length = s.length := by
        rw [← List.length_append, s.takeWhile_append_dropWhile]
      have : 0 < (s.takeWhile isWordC).length := List.length_pos.mpr hw1
      omega
    by_cases htw : (s.dropWhile isWordC).takeWhile isSpaceC = [] ∨
        (((s.dropWhile isWordC).dropWhile isSpaceC).takeWhile isWordC) = []
    · simp only [htw, if_true] at h
      cases hm : matchColonNumPct (s.dropWhile isWordC) with
      | none => rw [hm] at h; simp at h
      | some q =>
        obtain ⟨num2, rest2⟩ := q
        rw [hm] at h
        simp only [Option.some.injEq, Prod.mk.injEq] at h
        have : rest2.length < (s.dropWhile isWordC).length := matchColonNumPct_rest_length hm
        have hr : r = rest2 := h.2.symm
        subst hr
        omega
    · simp only [htw, if_false] at h
      cases hm2 : matchColonNumPct (((s.dropWhile isWordC).dropWhile isSpaceC).dropWhile isWordC) with
      | some q =>
        obtain ⟨num2, rest2⟩ := q
        rw [hm2] at h
        simp only [Option.some.injEq, Prod.mk.injEq] at h
        have k1 : rest2.length <
            (((s.dropWhile isWordC).dropWhile isSpaceC).dropWhile isWordC).length :=
          matchColonNumPct_rest_length hm2
        have k2 : (((s.dropWhile isWordC).dropWhile isSpaceC).dropWhile isWordC).length ≤
            ((s.dropWhile isWordC).dropWhile isSpaceC).length :=
          dropWhile_length_le isWordC ((s.dropWhile isWordC).dropWhile isSpaceC)
        have k3 : ((s.dropWhile isWordC).dropWhile isSpaceC).length ≤
            (s.dropWhile isWordC).length :=
          dropWhile_length_le isSpaceC (s.dropWhile isWordC)
        have hr : r = rest2 := h.2.symm
        subst hr
        omega
      | none =>
        rw [hm2] at h
        cases hm : matchColonNumPct (s.dropWhile isWordC) with
        | none => rw [hm] at h; simp at h
        | some q =>
          obtain ⟨num2, rest2⟩ := q
          rw [hm] at h
          simp only [Option.some.injEq, Prod.mk.injEq] at h
          have : rest2.length < (s.dropWhile isWordC).length := matchColonNumPct_rest_length hm
          have hr : r = rest2 := h.2.symm
          subst hr
          omega

theorem scanPieGo_fuel :
    ∀ (f g : Nat) (s : List Char), s.length ≤ f → s.length ≤ g →
      scanPieGo f s = scanPieGo g s := by
  intro f
  induction f with
  | zero =>
    intro g s hf _
    have : s = [] := List.eq_nil_of_length_eq_zero (by omega)
    subst this
    cases g <;> rfl
  | succ f ih =>
    intro g s hf hg
    cases s with
    | nil => cases g <;> rfl
    | cons c t =>
      cases g with
      | zero => simp at hg
      | succ g =>
        show (match matchPieAt (c :: t) with
          | some ((lab, num), rest) => (lab, num) :: scanPieGo f rest
          | none => scanPieGo f t) =
          (match matchPieAt (c :: t) with
          | some ((lab, num), rest) => (lab, num) :: scanPieGo g rest
          | none => scanPieGo g t)
        cases hm : matchPieAt (c :: t) with
        | none =>
          simp only []
          exact ih g t (by simp at hf; omega) (by simp at hg; omega)
        | some p =>
          obtain ⟨⟨lab, num⟩, rest⟩ := p
          simp only []
          have hrest : rest.length < (c :: t).length := matchPieAt_rest_length hm
          simp only [List.length_cons] at hf hg hrest
          rw [ih g rest (by omega) (by omega)]

theorem scanPie_nil : scanPie [] = [] := rfl

theorem scanPie_cons_some {c : Char} {t lab num rest : List Char}
    (h : matchPieAt (c :: t) = some ((lab, num), rest)) :
    scanPie (c :: t) = (lab, num) :: scanPie rest := by
  show scanPieGo (t.length + 1) (c :: t) = _
  show (match matchPieAt (c :: t) with
    | some ((lab, num), rest) => (lab, num) :: scanPieGo t.length rest
    | none => scanPieGo t.length t) = _
  rw [h]
  show (lab, num) :: scanPieGo t.length rest = (lab, num) :: scanPie rest
  have hrest : rest.length < (c :: t).length := matchPieAt_rest_length h
  simp only [List.length_cons] at hrest
  rw [scanPieGo_fuel t.length rest.length rest (by omega) le_rfl]
  rfl

theorem scanPie_cons_none {c : Char} {t : List Char}
    (h : matchPieAt (c :: t) = none) :
    scanPie (c :: t) = scanPie t := by
  show scanPieGo (t.length + 1) (c :: t) = _
  show (match matchPieAt (c :: t) with
    | some ((lab, num), rest) => (lab, num) :: scanPieGo t.length rest
    | none => scanPieGo t.length t) = _
  rw [h]
  show scanPieGo t.length t = scanPie t
  rfl

theorem insertByYear_perm (a : Nat × ℚ) (l : List (Nat × ℚ)) :
    List.Perm (insertByYear a l) (a :: l) := by
  induction l with
  | nil => simp [insertByYear]
  | cons b t ih =>
    unfold insertByYear
    by_cases hab : a.1 ≤ b.1
    · simp [hab]
    · simp only [hab, if_false]
      exact (ih.cons b).trans (List.Perm.swap a b t)

theorem sortValues_perm (l : List (Nat × ℚ)) : List.Perm (sortValues l) l := by
  induction l with
  | nil => simp [sortValues]
  | cons a t ih =>
    unfold sortValues
    exact (insertByYear_perm a (sortValues t)).trans (ih.cons a)

theorem insertByYear_pairwise {a : Nat × ℚ} {l : List (Nat × ℚ)}
    (hl : l.Pairwise (fun x y => x.1 ≤ y.1)) :
    (insertByYear a l).Pairwise (fun x y => x.1 ≤ y.1) := by
  induction l with
  | nil => simp [insertByYear]
  | cons b t ih =>
    unfold insertByYear
    rcases List.pairwise_cons.mp hl with ⟨hb, ht⟩
    by_cases hab : a.1 ≤ b.1
    · simp only [hab, if_true]
      refine List.pairwise_cons.mpr ⟨?_, hl⟩
      intro x hx
      rcases List.mem_cons.mp hx with hx | hx
      · subst hx; exact hab
      · exact le_trans hab (hb x hx)
    · simp only [hab, if_false]
      refine List.pairwise_cons.mpr ⟨?_, ih ht⟩
      intro x hx
      have hx2 := (insertByYear_perm a t).mem_iff.mp hx
      rcases List.mem_cons.mp hx2 with hx2 | hx2
      · subst hx2; omega
      · exact hb x hx2

theorem sortValues_sorted (l : List (Nat × ℚ)) :
    (sortValues l).Pairwise (fun x y => x.1 ≤ y.1) := by
  induction l with
  | nil => simp [sortValues]
  | cons a t ih => exact insertByYear_pairwise ih

/-- The character-level shape of a pie-pattern text whose label region is a
single-space-separated word list ending in two final words `A` and `B`,
followed by ": 42%". -/
def pieText (pre : List (List Char)) (A B : List Char) : List Char :=
  match pre with
  | [] => A ++ (' ' :: (B ++ [':', ' ', '4', '2', '%']))
  | w :: pre2 => w ++ (' ' :: pieText pre2 A B)

/-- Single-space join of a list of words (used to state texts like
"North East Region"). -/
def joinWords : List String → String
  | [] => ""
  | [w] => w
  | w :: ws => w ++ " " ++ joinWords ws

theorem fracPart_shape (r : List Char) :
    (fracPart r).1.all (fun c => isDigitC c || c = '.') := by
  unfold fracPart
  split
  · next r2 =>
    by_cases hfs : List.takeWhile isDigitC r2 = []
    · simp [hfs]
    · simp only [hfs, if_false, List.all_cons, Bool.and_eq_true]
      refine ⟨by simp, ?_⟩
      rw [List.all_eq_true]
      intro x hx
      have := List.mem_takeWhile_imp hx
      simp [this]
  · rfl

theorem matchNumber_shape {s n r : List Char} (h : matchNumber s = some (n, r)) :
    n.all (fun c => isDigitC c || c = '.') := by
  unfold matchNumber at h
  by_cases hds : s.takeWhile isDigitC = []
  · simp [hds] at h
  · simp only [hds, if_false, Option.some.injEq, Prod.mk.injEq] at h
    rw [← h.1, List.all_append, Bool.and_eq_true]
    refine ⟨?_, fracPart_shape _⟩
    rw [List.all_eq_true]
    intro x hx
    have := List.mem_takeWhile_imp hx
    simp [this]

theorem findNumberNoNewline_shape {s n r : List Char}
    (h : findNumberNoNewline s = some (n, r)) :
    n.all (fun c => isDigitC c || c = '.') := by
  induction s with
  | nil => simp [findNumberNoNewline] at h
  | cons c rest ih =>
    unfold findNumberNoNewline at h
    by_cases hd : isDigitC c
    · simp only [hd, if_true] at h
      exact matchNumber_shape h
    · simp only [hd, if_false] at h
      by_cases hnl : c = '\n'
      · simp [hnl] at h
      · simp only [hnl, if_false] at h
        exact ih h

theorem matchLineAt_shape {s : List Char} {y v r : List Char}
    (h : matchLineAt s = some ((y, v), r)) :
    v.all (fun c => isDigitC c || c = '.') := by
  unfold matchLineAt at h
  split at h
  · next a b c d rest =>
    by_cases hd : (isDigitC a && isDigitC b && isDigitC c && isDigitC d) = true
    · simp only [hd, if_true] at h
      cases hfn : findNumberNoNewline rest with
      | none => rw [hfn] at h; simp at h
      | some p =>
        obtain ⟨num, rest2⟩ := p
        rw [hfn] at h
        simp only [Option.some.injEq, Prod.mk.injEq] at h
        rw [← h.1.2]
        exact findNumberNoNewline_shape hfn
    · simp [hd] at h
  · simp at h

theorem scanLine_sound :
    ∀ (n : Nat) (s : List Char), s.length ≤ n → ∀ y v : List Char, (y, v) ∈ scanLine s →
      ∃ pre gap post, pre ++ y ++ gap ++ v ++ post = s ∧
        y.length = 4 ∧ y.all isDigitC ∧ v ≠ [] ∧
        v.all (fun c => isDigitC c || c = '.') ∧ ∀ c ∈ gap, c ≠ '\n' := by
  intro n
  induction n with
  | zero =>
    intro s hs y v hmem
    have : s = [] := List.eq_nil_of_length_eq_zero (by omega)
    subst this
    simp [scanLine_nil] at hmem
  | succ n ih =>
    intro s hs y v hmem
    cases s with
    | nil => simp [scanLine_nil] at hmem
    | cons c t =>
      cases hm : matchLineAt (c :: t) with
      | some p =>
        obtain ⟨⟨y0, v0⟩, rest⟩ := p
        rw [scanLine_cons_some hm] at hmem
        rcases List.mem_cons.mp hmem with heq | hmem2
        · obtain ⟨gap, hsplit, h4, hall, hvne, hgap⟩ := matchLineAt_decomp hm
          have hshape := matchLineAt_shape hm
          have hy : y = y0 := congrArg Prod.fst heq
          have hv : v = v0 := congrArg Prod.snd heq
          subst hy; subst hv
          exact ⟨[], gap, rest, by simpa [List.append_assoc] using hsplit,
            h4, hall, hvne, hshape, hgap⟩
        · have hrest : rest.length < (c :: t).length := matchLineAt_rest_length hm
          simp only [List.length_cons] at hrest hs
          obtain ⟨pre, gap, post, hsplit2, h4, hall, hvne, hshape, hgap⟩ :=
            ih rest (by omega) y v hmem2
          obtain ⟨gap0, hsplit, -, -, -, -⟩ := matchLineAt_decomp hm
          refine ⟨y0 ++ gap0 ++ v0 ++ pre, gap, post, ?_, h4, hall, hvne, hshape, hgap⟩
          rw [← hsplit, ← hsplit2]
          simp [List.append_assoc]
      | none =>
        rw [scanLine_cons_none hm] at hmem
        simp only [List.length_cons] at hs
        obtain ⟨pre, gap, post, hsplit2, h4, hall, hvne, hshape, hgap⟩ :=
          ih t (by omega) y v hmem
        exact ⟨c :: pre, gap, post, by rw [← hsplit2]; simp, h4, hall, hvne, hshape, hgap⟩

theorem scanLine_eq_nil {s : List Char} (h : ∀ i : Nat, matchLineAt (s.drop i) = none) :
    scanLine s = [] := by
  induction s with
  | nil => exact scanLine_nil
  | cons c t ih =>
    rw [scanLine_cons_none (h 0)]
    exact ih (fun i => h (i + 1))

/-- C1 (evidence for the code_bug verdict): the part of the claim the code
does guarantee.  For every extracted NumericSeries the chart builder renders
the series sorted ascending by year as a permutation of the extracted pairs,
and for the claim's distinct-year example [(2023,10),(2021,5),(2022,8)] the
rendered series is ordered 2021, 2022, 2023.  The claim's further stability
conjunct (equal-year pairs keep their original appearance order) is asserted by
the spec but not provided by `df.sort_values('Year')` with the default,
documentedly unstable `kind='quicksort'`; it is deliberately not stated here
(see `sortValues`). -/
theorem C1_line_chart_ascending :
    (∀ line_data pie_data : List (String × String), line_data ≠ [] →
      Chart.line (sortValues (line_data.map toLinePoint)) ∈ create_charts line_data pie_data ∧
      (sortValues (line_data.map toLinePoint)).Pairwise (fun a b => a.1 ≤ b.1) ∧
      List.Perm (sortValues (line_data.map toLinePoint)) (line_data.map toLinePoint)) ∧
    create_charts [("2023", "10"), ("2021", "5"), ("2022", "8")] [] =
      [Chart.line [(2021, 5), (2022, 8), (2023, 10)]] := by
  constructor
  · intro ld pd hne
    refine ⟨?_, sortValues_sorted _, sortValues_perm _⟩
    unfold create_charts
    simp [hne]
  · decide

theorem C1_line_chart_ascending_witness :
    ([("2023", "10"), ("2021", "5")] : List (String × String)) ≠ [] ∧
    (Chart.line (sortValues ([("2023", "10"), ("2021", "5")].map toLinePoint)) ∈
        create_charts [("2023", "10"), ("2021", "5")] [] ∧
      (sortValues ([("2023", "10"), ("2021", "5")].map toLinePoint)).Pairwise
        (fun a b => a.1 ≤ b.1) ∧
      List.Perm (sortValues ([("2023", "10"), ("2021", "5")].map toLinePoint))
        ([("2023", "10"), ("2021", "5")].map toLinePoint)) :=
  ⟨by decide, C1_line_chart_ascending.1 [("2023", "10"), ("2021", "5")] [] (by decide)⟩

/-- C2: For every narrative text, every extracted NumericSeries pair consists
of a 4-digit token occurring in the text followed, at a matched (newline-free)
distance, by a decimal number; any 4-digit run qualifies as a year, with no
plausibility validation — witnessed by "9999" being extracted as a year. -/
theorem C2_year_value_extraction :
    (∀ (text : String) (yv : String × String), yv ∈ (extract_numerical_data text).1 →
      yv.1.length = 4 ∧ yv.1.data.all isDigitC ∧ yv.2 ≠ "" ∧
      yv.2.data.all (fun c => isDigitC c || c = '.') ∧
      ∃ pre gap post, pre ++ yv.1.data ++ gap ++ yv.2.data ++ post = text.data ∧
        ∀ c ∈ gap, c ≠ '\n') ∧
    (extract_numerical_data "9999 x 12.5").1 = [("9999", "12.5")] := by
  constructor
  · intro text yv hmem
    simp only [extract_numerical_data] at hmem
    obtain ⟨⟨y, v⟩, hp, rfl⟩ := List.mem_map.mp hmem
    obtain ⟨pre, gap, post, hsplit, h4, hall, hvne, hshape, hgap⟩ :=
      scanLine_sound text.data.length text.data le_rfl y v hp
    refine ⟨h4, hall, ?_, hshape, pre, gap, post, hsplit, hgap⟩
    intro hc
    apply hvne
    have h2 : (String.mk v).data = ("" : String).data := congrArg String.data hc
    simpa using h2
  · decide

theorem C2_year_value_extraction_witness :
    (("1234", "5") : String × String) ∈ (extract_numerical_data "1234 5").1 ∧
    (("1234", "5") : String × String).1.length = 4 ∧
    ∃ pre gap post,
      pre ++ ("1234" : String).data ++ gap ++ ("5" : String).data ++ post =
        ("1234 5" : String).data ∧ ∀ c ∈ gap, c ≠ '\n' :=
  ⟨by decide,
   (C2_year_value_extraction.1 "1234 5" ("1234", "5") (by decide)).1,
   (C2_year_value_extraction.1 "1234 5" ("1234", "5") (by decide)).2.2.2.2⟩

/-- C3: For every narrative text with zero matches of the year/value pattern
(no position admits a match), the extracted NumericSeries is empty and the
chart builder produces no line chart; this is a silent, non-error outcome. -/
theorem C3_zero_matches_no_line_chart :
    ∀ text : String, (∀ i : Nat, matchLineAt (text.data.drop i) = none) →
      (extract_numerical_data text).1 = [] ∧
      ∀ (pie_data : List (String × String)) (pts : List (Nat × ℚ)),
        Chart.line pts ∉ create_charts (extract_numerical_data text).1 pie_data := by
  intro text h
  have hnil : (extract_numerical_data text).1 = [] := by
    simp only [extract_numerical_data]
    rw [scanLine_eq_nil h]
    rfl
  refine ⟨hnil, ?_⟩
  intro pd pts
  rw [hnil]
  unfold create_charts
  rcases eq_or_ne pd [] with hpd | hpd <;> simp [hpd]

theorem C3_zero_matches_no_line_chart_witness :
    (∀ i : Nat, matchLineAt (("abc" : String).data.drop i) = none) ∧
    ((extract_numerical_data "abc").1 = [] ∧
      ∀ (pie_data : List (String × String)) (pts : List (Nat × ℚ)),
        Chart.line pts ∉ create_charts (extract_numerical_data "abc").1 pie_data) := by
  have hyp : ∀ i : Nat, matchLineAt (("abc" : String).data.drop i) = none := by
    intro i
    match i with
    | 0 => rfl
    | 1 => rfl
    | 2 => rfl
    | n + 3 =>
      rw [List.drop_eq_nil_of_le (by simp)]
      rfl
  exact ⟨hyp, C3_zero_matches_no_line_chart "abc" hyp⟩

/-- C5: A triggered action with a missing required input — country, city, or
the custom idea text — produces a user-visible warning, issues zero network
calls, and commits nothing: no analysis, no charts, no download. -/
theorem C5_missing_input_warns_without_calls :
    ∀ (city country selectedOption businessIdea : String) (clicked : Bool)
      (sr : SearchResponse) (gr : GenResponse),
      abortedNoCalls (app_run city "" selectedOption businessIdea true sr gr) ∧
      abortedNoCalls (app_run "" country selectedOption businessIdea true sr gr) ∧
      abortedNoCalls (app_run city country customOptionText "" clicked sr gr) := by
  intro city country so bi clicked sr gr
  refine ⟨?_, ?_, ?_⟩ <;>
    · unfold app_run
      split_ifs <;> simp_all [abortedNoCalls]

/-- C9: The numeric extraction is deterministic: its embedding is a pure
function of the narrative text alone (the two regex patterns are constants and
`re.findall` consults no external state), so two runs on the same text return
identical results. -/
theorem C9_extraction_deterministic :
    ∀ text : String, extract_numerical_data text = extract_numerical_data text :=
  fun _ => rfl

theorem replaceSpaces_no_space (s : String) : ∀ c ∈ (replaceSpaces s).data, c ≠ ' ' := by
  intro c hc
  simp only [replaceSpaces] at hc
  obtain ⟨x, hx, rfl⟩ := List.mem_map.mp hc
  by_cases hxs : x = ' '
  · simp [hxs]
  · simp [hxs]

/-- C7: The exported document's filename is derived deterministically from city
and country with every space replaced by an underscore: no space character ever
appears in it, and city "New York" with country "USA" yields
"Feasibility_Analysis_New_York_USA.docx", which contains "New_York" and "USA". -/
theorem C7_export_filename :
    (∀ city country : String, ∀ c ∈ (analysisFileName city country).data, c ≠ ' ') ∧
    analysisFileName "New York" "USA" = "Feasibility_Analysis_New_York_USA.docx" ∧
    ("New_York" : String).data <:+: (analysisFileName "New York" "USA").data ∧
    ("USA" : String).data <:+: (analysisFileName "New York" "USA").data := by
  refine ⟨?_, by decide,
    ⟨("Feasibility_Analysis_" : String).data, ("_USA.docx" : String).data, by decide⟩,
    ⟨("Feasibility_Analysis_New_York_" : String).data, (".docx" : String).data, by decide⟩⟩
  intro city country c hc
  have hdata : (analysisFileName city country).data =
      ("Feasibility_Analysis_" : String).data ++ (replaceSpaces city).data ++
        ("_" : String).data ++ (replaceSpaces country).data ++ (".docx" : String).data := by
    simp [analysisFileName, String.data_append]
  rw [hdata] at hc
  simp only [List.mem_append] at hc
  rcases hc with ((((hc | hc) | hc) | hc) | hc)
  · exact (by decide : ∀ x ∈ ("Feasibility_Analysis_" : String).data, x ≠ ' ') c hc
  · exact replaceSpaces_no_space city c hc
  · exact (by decide : ∀ x ∈ ("_" : String).data, x ≠ ' ') c hc
  · exact replaceSpaces_no_space country c hc
  · exact (by decide : ∀ x ∈ (".docx" : String).data, x ≠ ' ') c hc

theorem C7_export_filename_witness :
    'N' ∈ (analysisFileName "New York" "USA").data ∧ 'N' ≠ ' ' :=
  ⟨by decide, C7_export_filename.1 "New York" "USA" 'N' (by decide)⟩

/-- C8: A search response with a missing `organic` array is tolerated as empty
— the generation context is the empty string and the source list is empty —
whereas a generation response with an absent `output` or `output.choices` field
produces an uncaught error that aborts the whole action after the two network
calls: nothing is displayed, no charts are built, no download is offered. -/
theorem C8_missing_response_fields :
    (∀ r : SearchResponse, r.organic? = none → searchContext r = "" ∧ searchSources r = []) ∧
    (∀ gr : GenResponse,
      (gr.output? = none ∨ ∃ o, gr.output? = some o ∧ o.choices? = none) →
      ∃ e, extractGenText gr = Except.error e) ∧
    (∀ (city country selectedOption businessIdea : String) (sr : SearchResponse)
      (gr : GenResponse) (e : String), extractGenText gr = Except.error e →
      selectedOption ≠ customOptionText → selectedOption ≠ "" → city ≠ "" → country ≠ "" →
      app_run city country selectedOption businessIdea true sr gr =
        { networkCalls := 2, errored := true }) := by
  refine ⟨?_, ?_, ?_⟩
  · intro r hr
    constructor
    · simp only [searchContext, hr, Option.getD_none, List.map_nil]
      rfl
    · simp only [searchSources, hr, Option.getD_none, List.map_nil]
  · intro gr hgr
    rcases hgr with hgr | ⟨o, ho, hc⟩
    · exact ⟨"KeyError: output", by simp [extractGenText, hgr]⟩
    · exact ⟨"KeyError: choices", by simp [extractGenText, ho, hc]⟩
  · intro city country so bi sr gr e he hso hso2 hc hk
    unfold app_run
    rw [if_neg (by tauto)]
    rw [if_pos rfl]
    rw [if_pos ⟨hc, hk, by simp [hso]; exact hso2⟩]
    rw [he]

theorem C8_missing_response_fields_witness :
    (searchContext ⟨none⟩ = "" ∧ searchSources ⟨none⟩ = []) ∧
    (∃ e, extractGenText ⟨none⟩ = Except.error e) ∧
    app_run "Quetzaltenango" "Guatemala" "Tourism" "" true ⟨none⟩ ⟨none⟩ =
      { networkCalls := 2, errored := true } :=
  ⟨C8_missing_response_fields.1 ⟨none⟩ rfl,
   C8_missing_response_fields.2.1 ⟨none⟩ (Or.inl rfl),
   C8_missing_response_fields.2.2 "Quetzaltenango" "Guatemala" "Tourism" "" ⟨none⟩ ⟨none⟩
     "KeyError: output" rfl (by decide) (by decide) (by decide) (by decide)⟩

/-- C4 counterexample: the narrative text "The Label: 42%" contains the
substring "Label: 42%", yet the extracted ShareBreakdown holds the single
entry ("The Label", 42) — the label pattern `\w+(?:\s+\w+)?` absorbs the
preceding word — so no entry with label "Label" exists, refuting the claim for
this text. -/
theorem C4_counterexample :
    ("Label: 42%" : String).data <:+: ("The Label: 42%" : String).data ∧
    shareBreakdown "The Label: 42%" = [("The Label", (42 : ℚ))] ∧
    ("Label", (42 : ℚ)) ∉ shareBreakdown "The Label: 42%" :=
  ⟨⟨("The " : String).data, [], by decide⟩, by decide, by decide⟩

/-- C4 (amended): for every narrative text that begins with the substring
"Label: 42%", the extracted ShareBreakdown contains the entry with label
"Label" and percent 42.0 — as its first entry, with the rest of the text
scanned independently.  (An occurrence preceded by a word, or by whitespace
after a word, instead extends the label leftward, as the counterexample
shows.) -/
theorem C4_label_percent_extraction :
    ∀ rest : String,
      shareBreakdown ("Label: 42%" ++ rest) = ("Label", (42 : ℚ)) :: shareBreakdown rest ∧
      ("Label", (42 : ℚ)) ∈ shareBreakdown ("Label: 42%" ++ rest) := by
  intro rest
  have h1 : (extract_numerical_data ("Label: 42%" ++ rest)).2 =
      ("Label", "42") :: (extract_numerical_data rest).2 := by
    simp only [extract_numerical_data]
    rw [show (("Label: 42%" ++ rest : String)).data =
      'L' :: 'a' :: 'b' :: 'e' :: 'l' :: ':' :: ' ' :: '4' :: '2' :: '%' :: rest.data from rfl]
    rw [scanPie_cons_some (show matchPieAt
      ('L' :: 'a' :: 'b' :: 'e' :: 'l' :: ':' :: ' ' :: '4' :: '2' :: '%' :: rest.data) =
      some ((['L', 'a', 'b', 'e', 'l'], ['4', '2']), rest.data) from rfl)]
    rfl
  have h2 : shareBreakdown ("Label: 42%" ++ rest) =
      ("Label", (42 : ℚ)) :: shareBreakdown rest := by
    simp only [shareBreakdown, h1, List.map_cons]
    rw [show ratOfDecimal "42" = (42 : ℚ) from by decide]
  exact ⟨h2, by rw [h2]; exact List.mem_cons_self _ _⟩

theorem C4_label_percent_extraction_witness :
    shareBreakdown ("Label: 42%" ++ " more text") =
      ("Label", (42 : ℚ)) :: shareBreakdown " more text" ∧
    ("Label", (42 : ℚ)) ∈ shareBreakdown ("Label: 42%" ++ " more text") :=
  C4_label_percent_extraction " more text"

theorem filter_isH2_flatMap (info : List (String × String)) :
    (info.flatMap (fun sd => [DocBlock.heading 2 sd.1, DocBlock.para sd.2])).filter isH2 =
      info.map (fun sd => DocBlock.heading 2 sd.1) := by
  induction info with
  | nil => rfl
  | cons sd t ih => simp [List.flatMap_cons, List.filter_append, ih, List.filter_cons, isH2]

theorem filter_isH2_map_bullet (sources : List String) :
    (sources.map DocBlock.bullet).filter isH2 = [] := by
  induction sources with
  | nil => rfl
  | cons s t ih => simp [List.filter_cons, isH2, ih]

theorem filter_isBulletB_map (sources : List String) :
    (sources.map DocBlock.bullet).filter isBulletB = sources.map DocBlock.bullet := by
  induction sources with
  | nil => rfl
  | cons s t ih => simp [List.filter_cons, isBulletB, ih]

theorem filter_isBulletB_flatMap (info : List (String × String)) :
    (info.flatMap (fun sd => [DocBlock.heading 2 sd.1, DocBlock.para sd.2])).filter isBulletB =
      [] := by
  induction info with
  | nil => rfl
  | cons sd t ih => simp [List.flatMap_cons, List.filter_append, ih, List.filter_cons, isBulletB]

/-- C6: Every document the report assembler builds from a location, a
sector-to-narrative mapping and an ordered source list starts with a title
heading carrying the location, contains exactly one sector heading per mapping
entry (each followed by its narrative paragraph), lists one bullet per source
link with no deduplication — sources ["http://x","http://x"] yield two bullets
— ends with the fixed disclaimer paragraph, and is a deterministic function of
its inputs. -/
theorem C6_docx_structure :
    (∀ (city country : String) (info : List (String × String)) (sources : List String),
      (create_docx city country info sources).head? =
        some (DocBlock.heading 0 ("Feasibility Analysis - " ++ city ++ ", " ++ country)) ∧
      (create_docx city country info sources).filter isH2 =
        info.map (fun sd => DocBlock.heading 2 sd.1) ∧
      (∀ sd ∈ info, [DocBlock.heading 2 sd.1, DocBlock.para sd.2] <:+:
        create_docx city country info sources) ∧
      (create_docx city country info sources).filter isBulletB =
        sources.map DocBlock.bullet ∧
      DocBlock.para disclaimerText ∈ create_docx city country info sources ∧
      create_docx city country info sources = create_docx city country info sources) ∧
    ((create_docx "C" "K" [("Tourism", "text A")] ["http://x", "http://x"]).filter isH2 =
        [DocBlock.heading 2 "Tourism"] ∧
      (create_docx "C" "K" [("Tourism", "text A")] ["http://x", "http://x"]).filter isBulletB =
        [DocBlock.bullet "http://x", DocBlock.bullet "http://x"]) := by
  constructor
  · intro city country info sources
    refine ⟨rfl, ?_, ?_, ?_, ?_, rfl⟩
    · simp [create_docx, List.filter_append, filter_isH2_flatMap, List.filter_cons, isH2,
        filter_isH2_map_bullet]
    · intro sd hsd
      obtain ⟨l1, l2, rfl⟩ := List.append_of_mem hsd
      refine ⟨[DocBlock.heading 0 ("Feasibility Analysis - " ++ city ++ ", " ++ country),
        DocBlock.heading 1 "Location", DocBlock.para (city ++ ", " ++ country)] ++
          l1.flatMap (fun sd => [DocBlock.heading 2 sd.1, DocBlock.para sd.2]),
        l2.flatMap (fun sd => [DocBlock.heading 2 sd.1, DocBlock.para sd.2]) ++
          [DocBlock.heading 1 "Sources"] ++ sources.map DocBlock.bullet ++
          [DocBlock.para disclaimerText], ?_⟩
      simp [create_docx, List.flatMap_append, List.flatMap_cons, List.append_assoc]
    · simp [create_docx, List.filter_append, filter_isBulletB_flatMap, filter_isBulletB_map,
        List.filter_cons, isBulletB]
    · simp [create_docx]
  · constructor
    · decide
    · decide

theorem C6_docx_structure_witness :
    ("Tourism", "text A") ∈ ([("Tourism", "text A")] : List (String × String)) ∧
    [DocBlock.heading 2 "Tourism", DocBlock.para "text A"] <:+:
      create_docx "C" "K" [("Tourism", "text A")] ["http://x", "http://x"] :=
  ⟨by decide,
   (C6_docx_structure.1 "C" "K" [("Tourism", "text A")] ["http://x", "http://x"]).2.2.1
     ("Tourism", "text A") (by decide)⟩

theorem takeWhile_append_of_all {p : Char → Bool} {l r : List Char} (h : ∀ c ∈ l, p c = true) :
    (l ++ r).takeWhile p = l ++ r.takeWhile p := by
  induction l with
  | nil => simp
  | cons c t ih =>
    simp only [List.cons_append, List.takeWhile_cons, h c (by simp), if_true]
    rw [ih (fun x hx => h x (by simp [hx]))]

theorem dropWhile_append_of_all {p : Char → Bool} {l r : List Char} (h : ∀ c ∈ l, p c = true) :
    (l ++ r).dropWhile p = r.dropWhile p := by
  induction l with
  | nil => simp
  | cons c t ih =>
    simp only [List.cons_append, List.dropWhile_cons, h c (by simp), if_true]
    exact ih (fun x hx => h x (by simp [hx]))

theorem word_not_space {c : Char} (h : isWordC c = true) : isSpaceC c = false := by
  rcases hs : isSpaceC c with _ | _
  · rfl
  · exfalso
    simp only [isSpaceC, Bool.or_eq_true, decide_eq_true_eq] at hs
    rcases hs with ((((rfl | rfl) | rfl) | rfl) | rfl) | rfl <;> exact absurd h (by decide)

theorem word_not_colon {c : Char} (h : isWordC c = true) : c ≠ ':' := by
  intro hc
  subst hc
  exact absurd h (by decide)

theorem matchPieAt_two_words {A B : List Char} (hA : A ≠ []) (hAw : ∀ c ∈ A, isWordC c = true)
    (hB : B ≠ []) (hBw : ∀ c ∈ B, isWordC c = true) :
    matchPieAt (A ++ (' ' :: (B ++ [':', ' ', '4', '2', '%']))) =
      some ((A ++ (' ' :: B), ['4', '2']), []) := by
  obtain ⟨b0, B', rfl⟩ := List.exists_cons_of_ne_nil hB
  have hw_space : isWordC ' ' = false := by decide
  have hs_space : isSpaceC ' ' = true := by decide
  have hw_colon : isWordC ':' = false := by decide
  have hb0 : isWordC b0 = true := hBw b0 (by simp)
  have hBw' : ∀ c ∈ b0 :: (B' ++ ([] : List Char)), isWordC c = true := by
    simpa using hBw
  have h1 : List.takeWhile isWordC (A ++ ' ' :: b0 :: (B' ++ [':', ' ', '4', '2', '%'])) = A := by
    rw [takeWhile_append_of_all hAw]
    simp [List.takeWhile_cons, hw_space]
  have h2 : List.dropWhile isWordC (A ++ ' ' :: b0 :: (B' ++ [':', ' ', '4', '2', '%'])) =
      ' ' :: b0 :: (B' ++ [':', ' ', '4', '2', '%']) := by
    rw [dropWhile_append_of_all hAw]
    simp [List.dropWhile_cons, hw_space]
  have h3 : List.takeWhile isSpaceC (' ' :: b0 :: (B' ++ [':', ' ', '4', '2', '%'])) = [' '] := by
    simp [List.takeWhile_cons, word_not_space hb0, hs_space]
  have h4 : List.dropWhile isSpaceC (' ' :: b0 :: (B' ++ [':', ' ', '4', '2', '%'])) =
      b0 :: (B' ++ [':', ' ', '4', '2', '%']) := by
    simp [List.dropWhile_cons, word_not_space hb0, hs_space]
  have h5 : List.takeWhile isWordC (b0 :: (B' ++ [':', ' ', '4', '2', '%'])) = b0 :: B' := by
    have := @takeWhile_append_of_all isWordC (b0 :: B') [':', ' ', '4', '2', '%'] hBw
    simp only [List.cons_append] at this
    rw [this]
    simp [List.takeWhile_cons, hw_colon]
  have h6 : List.dropWhile isWordC (b0 :: (B' ++ [':', ' ', '4', '2', '%'])) =
      [':', ' ', '4', '2', '%'] := by
    have := @dropWhile_append_of_all isWordC (b0 :: B') [':', ' ', '4', '2', '%'] hBw
    simp only [List.cons_append] at this
    rw [this]
    simp [List.dropWhile_cons, hw_colon]
  have h7 : matchColonNumPct [':', ' ', '4', '2', '%'] = some (['4', '2'], []) := rfl
  unfold matchPieAt
  simp only [List.cons_append, h1, h2, h3, h4, h5, h6, h7]
  rw [if_neg hA, if_neg (by simp)]
  simp

theorem matchColonNumPct_none_of_word {Z Z2 : List Char} {c : Char}
    (hd : Z.dropWhile isSpaceC = c :: Z2) (hc : isWordC c = true) :
    matchColonNumPct Z = none := by
  unfold matchColonNumPct
  rw [hd]
  simp [expectChar, word_not_colon hc]

theorem matchPieAt_space (R : List Char) : matchPieAt (' ' :: R) = none := rfl

theorem matchPieAt_fail {S X : List Char} {z0 : Char} {Z' : List Char}
    (hS : S ≠ []) (hSw : ∀ c ∈ S, isWordC c = true)
    (hX : X ≠ []) (hXw : ∀ c ∈ X, isWordC c = true)
    (hz0 : isWordC z0 = true) :
    matchPieAt (S ++ (' ' :: (X ++ (' ' :: (z0 :: Z'))))) = none := by
  obtain ⟨x0, X0, rfl⟩ := List.exists_cons_of_ne_nil hX
  have hw_space : isWordC ' ' = false := by decide
  have hs_space : isSpaceC ' ' = true := by decide
  have hx0 : isWordC x0 = true := hXw x0 (by simp)
  have h1 : List.takeWhile isWordC (S ++ ' ' :: x0 :: (X0 ++ ' ' :: z0 :: Z')) = S := by
    rw [takeWhile_append_of_all hSw]
    simp [List.takeWhile_cons, hw_space]
  have h2 : List.dropWhile isWordC (S ++ ' ' :: x0 :: (X0 ++ ' ' :: z0 :: Z')) =
      ' ' :: x0 :: (X0 ++ ' ' :: z0 :: Z') := by
    rw [dropWhile_append_of_all hSw]
    simp [List.dropWhile_cons, hw_space]
  have h3 : List.takeWhile isSpaceC (' ' :: x0 :: (X0 ++ ' ' :: z0 :: Z')) = [' '] := by
    simp [List.takeWhile_cons, word_not_space hx0, hs_space]
  have h4 : List.dropWhile isSpaceC (' ' :: x0 :: (X0 ++ ' ' :: z0 :: Z')) =
      x0 :: (X0 ++ ' ' :: z0 :: Z') := by
    simp [List.dropWhile_cons, word_not_space hx0, hs_space]
  have h5 : List.takeWhile isWordC (x0 :: (X0 ++ ' ' :: z0 :: Z')) = x0 :: X0 := by
    have := @takeWhile_append_of_all isWordC (x0 :: X0) (' ' :: z0 :: Z') hXw
    simp only [List.cons_append] at this
    rw [this]
    simp [List.takeWhile_cons, hw_space]
  have h6 : List.dropWhile isWordC (x0 :: (X0 ++ ' ' :: z0 :: Z')) = ' ' :: z0 :: Z' := by
    have := @dropWhile_append_of_all isWordC (x0 :: X0) (' ' :: z0 :: Z') hXw
    simp only [List.cons_append] at this
    rw [this]
    simp [List.dropWhile_cons, hw_space]
  have h7 : matchColonNumPct (' ' :: z0 :: Z') = none := by
    refine @matchColonNumPct_none_of_word (' ' :: z0 :: Z') Z' z0 ?_ hz0
    simp [List.dropWhile_cons, word_not_space hz0, hs_space]
  have h8 : matchColonNumPct (' ' :: x0 :: (X0 ++ ' ' :: z0 :: Z')) = none := by
    refine @matchColonNumPct_none_of_word (' ' :: x0 :: (X0 ++ ' ' :: z0 :: Z')) (X0 ++ ' ' :: z0 :: Z') x0 ?_ hx0
    simp [List.dropWhile_cons, word_not_space hx0, hs_space]
  unfold matchPieAt
  simp only [List.cons_append, h1, h2, h3, h4, h5, h6, h7, h8]
  rw [if_neg hS, if_neg (by simp)]

theorem scanPie_skip {W REST : List Char}
    (hfail : ∀ S, S ≠ [] → S <:+ W → matchPieAt (S ++ (' ' :: REST)) = none) :
    scanPie (W ++ (' ' :: REST)) = scanPie REST := by
  induction W with
  | nil =>
    simpa using scanPie_cons_none (matchPieAt_space REST)
  | cons c W' ih =>
    have h1 : matchPieAt ((c :: W') ++ (' ' :: REST)) = none :=
      hfail (c :: W') (by simp) (List.suffix_refl _)
    rw [List.cons_append] at h1
    rw [List.cons_append, scanPie_cons_none h1]
    exact ih (fun S hne hsuf => hfail S hne (hsuf.trans (List.suffix_cons c W')))

theorem pieText_head (pre : List (List Char)) (A B : List Char)
    (hpre : ∀ w ∈ pre, w ≠ [] ∧ ∀ c ∈ w, isWordC c = true)
    (hA : A ≠ []) (hAw : ∀ c ∈ A, isWordC c = true) :
    ∃ z0 Z', pieText pre A B = z0 :: Z' ∧ isWordC z0 = true := by
  cases pre with
  | nil =>
    obtain ⟨a0, A0, rfl⟩ := List.exists_cons_of_ne_nil hA
    exact ⟨a0, A0 ++ (' ' :: (B ++ [':', ' ', '4', '2', '%'])), by simp [pieText], hAw a0 (by simp)⟩
  | cons w pre2 =>
    obtain ⟨hw, hww⟩ := hpre w (by simp)
    obtain ⟨w0, w1, rfl⟩ := List.exists_cons_of_ne_nil hw
    exact ⟨w0, w1 ++ (' ' :: pieText pre2 A B), by simp [pieText], hww w0 (by simp)⟩

theorem pieText_shape (pre : List (List Char)) (A B : List Char)
    (hpre : ∀ w ∈ pre, w ≠ [] ∧ ∀ c ∈ w, isWordC c = true)
    (hA : A ≠ []) (hAw : ∀ c ∈ A, isWordC c = true)
    (hB : B ≠ []) (hBw : ∀ c ∈ B, isWordC c = true) :
    ∃ X z0 Z', pieText pre A B = X ++ (' ' :: (z0 :: Z')) ∧ X ≠ [] ∧
      (∀ c ∈ X, isWordC c = true) ∧ isWordC z0 = true := by
  cases pre with
  | nil =>
    obtain ⟨b0, B0, rfl⟩ := List.exists_cons_of_ne_nil hB
    refine ⟨A, b0, B0 ++ [':', ' ', '4', '2', '%'], ?_, hA, hAw, hBw b0 (by simp)⟩
    simp [pieText]
  | cons w pre2 =>
    obtain ⟨hw, hww⟩ := hpre w (by simp)
    obtain ⟨z0, Z', hz, hz0⟩ := pieText_head pre2 A B (fun x hx => hpre x (by simp [hx])) hA hAw
    exact ⟨w, z0, Z', by simp [pieText, hz], hw, hww, hz0⟩

theorem scanPie_pieText :
    ∀ (pre : List (List Char)) (A B : List Char),
      (∀ w ∈ pre, w ≠ [] ∧ ∀ c ∈ w, isWordC c = true) →
      A ≠ [] → (∀ c ∈ A, isWordC c = true) → B ≠ [] → (∀ c ∈ B, isWordC c = true) →
      scanPie (pieText pre A B) = [(A ++ (' ' :: B), ['4', '2'])] := by
  intro pre
  induction pre with
  | nil =>
    intro A B _ hA hAw hB hBw
    obtain ⟨a0, A0, rfl⟩ := List.exists_cons_of_ne_nil hA
    have hm := matchPieAt_two_words hA hAw hB hBw
    rw [List.cons_append] at hm
    show scanPie ((a0 :: A0) ++ (' ' :: (B ++ [':', ' ', '4', '2', '%']))) = _
    rw [List.cons_append, scanPie_cons_some hm]
    rfl
  | cons w pre2 ih =>
    intro A B hpre hA hAw hB hBw
    obtain ⟨hw, hww⟩ := hpre w (by simp)
    have hpre2 : ∀ x ∈ pre2, x ≠ [] ∧ ∀ c ∈ x, isWordC c = true :=
      fun x hx => hpre x (by simp [hx])
    obtain ⟨X, z0, Z', hshape, hX, hXw, hz0⟩ := pieText_shape pre2 A B hpre2 hA hAw hB hBw
    show scanPie (w ++ (' ' :: pieText pre2 A B)) = _
    rw [scanPie_skip ?_]
    · exact ih A B hpre2 hA hAw hB hBw
    · intro S hne hsuf
      rw [hshape]
      exact matchPieAt_fail hne (fun c hc => hww c (hsuf.subset hc)) hX hXw hz0

theorem joinWords_cons (w : String) (ws : List String) (h : ws ≠ []) :
    joinWords (w :: ws) = w ++ " " ++ joinWords ws := by
  cases ws with
  | nil => exact absurd rfl h
  | cons v vs => rfl

theorem str_data_ne_nil {w : String} (h : w ≠ "") : w.data ≠ [] := by
  intro hc
  apply h
  have hw : w = String.mk w.data := rfl
  rw [hw, hc]

theorem joinWords_data (a b : String) :
    ∀ pre : List String, (joinWords (pre ++ [a, b]) ++ ": 42%").data =
      pieText (pre.map String.data) a.data b.data := by
  intro pre
  induction pre with
  | nil =>
    show ((joinWords [a, b] ++ ": 42%")).data = _
    simp only [joinWords, String.data_append, pieText, List.map_nil]
    simp [List.append_assoc]
  | cons w pre2 ih =>
    rw [show ((w :: pre2) ++ [a, b]) = w :: (pre2 ++ [a, b]) from rfl,
        joinWords_cons w _ (by simp)]
    simp only [List.map_cons]
    rw [show pieText (w.data :: pre2.map String.data) a.data b.data =
        w.data ++ (' ' :: pieText (pre2.map String.data) a.data b.data) from rfl]
    rw [← ih]
    simp only [String.data_append]
    simp [List.append_assoc]

/-- C10: For every "<label>: <number>%" text whose label is a single-space
separated list of more than two (in general, at least two) words, the
ShareBreakdown extraction captures only the last two words as the label,
because the label pattern matches at most two word tokens; in particular
"North East Region: 42%" yields the single entry with label "East Region". -/
theorem C10_label_last_two_words :
    (∀ (pre : List String) (a b : String),
      (∀ w ∈ pre, w ≠ "" ∧ ∀ c ∈ w.data, isWordC c = true) →
      a ≠ "" → (∀ c ∈ a.data, isWordC c = true) →
      b ≠ "" → (∀ c ∈ b.data, isWordC c = true) →
      (extract_numerical_data (joinWords (pre ++ [a, b]) ++ ": 42%")).2 =
        [(a ++ " " ++ b, "42")]) ∧
    (extract_numerical_data "North East Region: 42%").2 = [("East Region", "42")] := by
  constructor
  · intro pre a b hpre ha haw hb hbw
    simp only [extract_numerical_data]
    rw [joinWords_data a b pre]
    have hpre2 : ∀ w ∈ pre.map String.data, w ≠ [] ∧ ∀ c ∈ w, isWordC c = true := by
      intro w hw
      obtain ⟨w0, hw0, rfl⟩ := List.mem_map.mp hw
      exact ⟨str_data_ne_nil (hpre w0 hw0).1, (hpre w0 hw0).2⟩
    rw [scanPie_pieText (pre.map String.data) a.data b.data hpre2
      (str_data_ne_nil ha) haw (str_data_ne_nil hb) hbw]
    simp only [List.map_cons, List.map_nil]
    have hlab : String.mk (a.data ++ (' ' :: b.data)) = a ++ " " ++ b := by
      apply String.ext
      simp [String.data_append]
    rw [hlab]
  · decide

theorem C10_label_last_two_words_witness :
    (∀ w ∈ (["North"] : List String), w ≠ "" ∧ ∀ c ∈ w.data, isWordC c = true) ∧
    (extract_numerical_data (joinWords (["North"] ++ ["East", "Region"]) ++ ": 42%")).2 =
      [("East" ++ " " ++ "Region", "42")] :=
  ⟨by decide,
   C10_label_last_two_words.1 ["North"] "East" "Region" (by decide) (by decide) (by decide)
     (by decide) (by decide)⟩
